import Mathlib

/-!
Verification of the durable MCP runtime (reboot-dev/durable-mcp-python).

This file gives a shallow embedding of the parts of the repository that the
claims are about:

  * the JSON-RPC message shapes that the runtime inspects
    (`src/reboot/mcp/event_store.py`, `src/reboot/mcp/servicers/session.py`);
  * the per-stream event log servicer (`src/reboot/mcp/servicers/stream.py`);
  * the session servicer's `send_and_receive` loop and
    `cancel_outstanding_requests` (`src/reboot/mcp/servicers/session.py`);
  * the durable event store's id derivation, number normalization and
    qualified-id parsing (`src/reboot/mcp/event_store.py`);
  * the tool adapter (`src/reboot/mcp/server.py`): `_wrap_tool`,
    `report_progress`, `log`, the `send_*_list_changed` helpers and `elicit`.

Python dictionaries are embedded as association lists, Python sets as
`Finset`/membership-guarded lists, exceptions as `Option`/`Except`, and the
external `uuid` library as explicit function parameters (`uuid5Hex`,
`uuid4Hex`): the code under verification only ever *applies* those functions,
so every theorem quantifies over them.
-/

set_option autoImplicit false

namespace DurableMCP

/-- JSON-RPC ids are `str | int` in Python (`mcp.types.RequestId`). -/
inductive RId where
  | intId (n : Int)
  | strId (s : String)
  deriving DecidableEq, Repr

/-- Python `str(id)` applied to a JSON-RPC id. -/
def pyStr : RId → String
  | .intId n => toString n
  | .strId s => s

/-- The four JSON-RPC message roots that the runtime distinguishes
(`mcp.types.JSONRPCRequest/JSONRPCNotification/JSONRPCResponse/JSONRPCError`).
For requests and notifications we record the `params._meta.rebootEventId`
value when the message carries one (`none` models a message whose params have
no such entry). -/
inductive JSONRPCMessage where
  | request (id : RId) (rebootEventId : Option String)
  | notif (rebootEventId : Option String)
  | response (id : RId)
  | error (id : RId)
  deriving DecidableEq, Repr

/-- Embeds `get_event_id` of `src/reboot/mcp/event_store.py`.  For a
`JSONRPCRequest`/`JSONRPCNotification` the Python code `assert`s that
`params._meta.rebootEventId` is present and returns it; the assertion
failure is modelled by `none`.  For a `JSONRPCResponse`/`JSONRPCError` it
returns `str(message.root.id)`. -/
def get_event_id : JSONRPCMessage → Option String
  | .request _ rebootEventId => rebootEventId
  | .notif rebootEventId => rebootEventId
  | .response id => some (pyStr id)
  | .error id => some (pyStr id)

/-- Whether the message root is a `JSONRPCResponse | JSONRPCError`
(the terminal check in `send_and_receive` and in `replay`). -/
def isResponseOrError : JSONRPCMessage → Bool
  | .response _ => true
  | .error _ => true
  | _ => false

/-! ## Stream servicer (`src/reboot/mcp/servicers/stream.py`) -/

/-- One element of `state.messages`: the proto `Message` with its optional
`event_id` and `related_request_id` fields. -/
structure StoredMessage where
  message : JSONRPCMessage
  event_id : Option String
  related_request_id : Option String
  deriving DecidableEq, Repr

/-- The proto `Event` built by `StreamServicer.Replay`. -/
structure Event where
  id : String
  message : JSONRPCMessage
  related_request_id : Option String
  deriving DecidableEq, Repr

/-- The events of a stream: the stored messages that `HasField("event_id")`,
in stored order, as built at the top of `StreamServicer.Replay`. -/
def streamEvents (messages : List StoredMessage) : List Event :=
  messages.filterMap fun m =>
    m.event_id.map fun e => ⟨e, m.message, m.related_request_id⟩

/-- The scan of `StreamServicer.Replay` over `events` when a
`last_event_id` is given: return the suffix after the first event whose id
equals `last_event_id`, or `[]` when no event matches (the final
`return ReplayResponse()`). -/
def replayAfter : List Event → String → List Event
  | [], _ => []
  | ev :: rest, e => if ev.id = e then rest else replayAfter rest e

/-- Embeds `StreamServicer.Replay`: all events when `last_event_id` is
absent, otherwise the suffix strictly after the matching event. -/
def Replay (messages : List StoredMessage) (last_event_id : Option String) :
    List Event :=
  match last_event_id with
  | none => streamEvents messages
  | some e => replayAfter (streamEvents messages) e

/-- Embeds `StreamServicer.Put`: appends one `Message` to `state.messages`. -/
def Put (messages : List StoredMessage) (message : JSONRPCMessage)
    (event_id : Option String) (related_request_id : Option String) :
    List StoredMessage :=
  messages ++ [⟨message, event_id, related_request_id⟩]

theorem replayAfter_append (pre : List Event) (ev : Event) (suf : List Event)
    (e : String) (hid : ev.id = e) (hpre : ∀ x ∈ pre, x.id ≠ e) :
    replayAfter (pre ++ ev :: suf) e = suf := by
  induction pre with
  | nil => simp [replayAfter, hid]
  | cons x xs ih =>
    have hx : x.id ≠ e := hpre x (by simp)
    simp only [List.cons_append, replayAfter, if_neg hx]
    exact ih fun y hy => hpre y (by simp [hy])

/-- C2.  With no `last_event_id`, `Replay` returns all events of the stream
in append order.  When `e` is the id of a stored event and event ids are
unique in the stream, `Replay(last_event_id = e)` returns exactly the suffix
of events strictly after `e`, in append order, and that suffix contains
neither `e` nor any event at or before `e`'s position. -/
theorem c2_replay_monotone (messages : List StoredMessage) (e : String)
    (hnodup : ((streamEvents messages).map Event.id).Nodup)
    (he : e ∈ (streamEvents messages).map Event.id) :
    Replay messages none = streamEvents messages ∧
    ∃ pre ev suf, streamEvents messages = pre ++ ev :: suf ∧ ev.id = e ∧
      Replay messages (some e) = suf ∧
      (∀ ev' ∈ suf, ev'.id ≠ e) ∧ (∀ ev' ∈ pre, ev' ∉ suf) := by
  refine ⟨rfl, ?_⟩
  obtain ⟨ev, hev, hevid⟩ := List.mem_map.mp he
  obtain ⟨pre, suf, hsplit⟩ := List.append_of_mem hev
  have hids : ((pre.map Event.id) ++ ev.id :: (suf.map Event.id)).Nodup := by
    simpa [hsplit] using hnodup
  obtain ⟨-, hcons, hdisj⟩ := List.nodup_append.mp hids
  have hprene : ∀ x ∈ pre, x.id ≠ e := by
    intro x hx hxe
    exact hdisj (List.mem_map_of_mem Event.id hx)
      (by simp [hxe, ← hevid])
  refine ⟨pre, ev, suf, hsplit, hevid, ?_, ?_, ?_⟩
  · show replayAfter (streamEvents messages) e = suf
    rw [hsplit]
    exact replayAfter_append pre ev suf e hevid hprene
  · intro ev' hev' hcontra
    have : ev.id ∉ suf.map Event.id := by simpa using hcons.not_mem
    exact this (List.mem_map.mpr ⟨ev', hev', by rw [hcontra, hevid]⟩)
  · intro ev' hev' hcontra
    exact hdisj (List.mem_map_of_mem Event.id hev')
      (by simp [List.mem_map_of_mem Event.id hcontra])

/-! ## Session servicer: `send_and_receive`
(`src/reboot/mcp/servicers/session.py`, `HandleMessage`) -/

/-- A `SessionMessage` as seen on the engine-write channel: the JSON-RPC
message plus `metadata.related_request_id` when metadata is present. -/
structure SessionMessage where
  message : JSONRPCMessage
  related_request_id : Option String
  deriving DecidableEq, Repr

/-- An entry of the servicer's in-memory `_write_request_ids` map:
minted event id, server-generated request id, related request id. -/
structure WriteRequestId where
  event_id : String
  server_request_id : RId
  related_request_id : String
  deriving DecidableEq, Repr

/-- Embeds the `async for write_message in write_stream_receive` loop of
`send_and_receive`.  For each outbound message: derive its event id
(`get_event_id`; an assertion failure yields `none` for the whole run),
for a server-initiated `JSONRPCRequest` rewrite `root.id` to the event id
and record the mapping (asserting a related request id is present), `Put`
the message on the stream with the event id, and stop right after a
`JSONRPCResponse | JSONRPCError` has been appended (the code then closes the
engine-read channel and `break`s).  The `per_workflow(event_id)` idempotency
guard and the duplicate append onto the VSCode aggregate stream are not
needed by the claims and are omitted. -/
def sendAndReceiveLoop :
    List SessionMessage → List StoredMessage → List WriteRequestId →
    Option (List StoredMessage × List WriteRequestId)
  | [], stream, writeRequestIds => some (stream, writeRequestIds)
  | wm :: rest, stream, writeRequestIds =>
    match get_event_id wm.message with
    | none => none
    | some event_id =>
      match wm.message with
      | .request server_request_id rebootEventId =>
        match wm.related_request_id with
        | none => none
        | some related =>
          sendAndReceiveLoop rest
            (Put stream (.request (.strId event_id) rebootEventId)
              (some event_id) (some related))
            (⟨event_id, server_request_id, related⟩ :: writeRequestIds)
      | m =>
        let stream' := Put stream m (some event_id) wm.related_request_id
        if isResponseOrError m then some (stream', writeRequestIds)
        else sendAndReceiveLoop rest stream' writeRequestIds

/-- C1.  If the stream holds no terminal event yet (its stored request, a
`JSONRPCRequest`, is not one), the engine emits at least one
`JSONRPCResponse | JSONRPCError`, and the `send_and_receive` loop runs to
completion, then the resulting stream is a prefix with no terminal event
followed by exactly one terminal event, which is the last message appended:
after appending it the loop stops, so no further event reaches that
stream. -/
theorem c1_unique_terminal (outbound : List SessionMessage)
    (stream₀ stream₁ : List StoredMessage)
    (wri₀ wri₁ : List WriteRequestId)
    (hclean : ∀ m ∈ stream₀, m.event_id.isSome →
      isResponseOrError m.message = false)
    (hterm : ∃ wm ∈ outbound, isResponseOrError wm.message = true)
    (hrun : sendAndReceiveLoop outbound stream₀ wri₀ = some (stream₁, wri₁)) :
    (∃ pre t, stream₁ = pre ++ [t] ∧ t.event_id.isSome ∧
      isResponseOrError t.message = true ∧
      ∀ m ∈ pre, m.event_id.isSome → isResponseOrError m.message = false) ∧
    ((streamEvents stream₁).filter
      (fun ev => isResponseOrError ev.message)).length = 1 := by
  have main : ∀ outbound stream₀ wri₀,
      (∀ m ∈ stream₀, m.event_id.isSome → isResponseOrError m.message = false) →
      (∃ wm ∈ outbound, isResponseOrError wm.message = true) →
      ∀ stream₁ wri₁,
      sendAndReceiveLoop outbound stream₀ wri₀ = some (stream₁, wri₁) →
      ∃ pre t, stream₁ = pre ++ [t] ∧ t.event_id.isSome ∧
        isResponseOrError t.message = true ∧
        ∀ m ∈ pre, m.event_id.isSome → isResponseOrError m.message = false := by
    intro outbound
    induction outbound with
    | nil =>
      intro stream₀ wri₀ _ hterm stream₁ wri₁ _
      obtain ⟨wm, hwm, -⟩ := hterm
      exact absurd hwm (List.not_mem_nil wm)
    | cons wm rest ih =>
      intro stream₀ wri₀ hclean hterm stream₁ wri₁ hrun
      obtain ⟨msg, rel⟩ := wm
      have hnextclean : ∀ appended : StoredMessage,
          isResponseOrError appended.message = false →
          ∀ m ∈ stream₀ ++ [appended], m.event_id.isSome →
            isResponseOrError m.message = false := by
        intro appended happ m hmem hsome
        rcases List.mem_append.mp hmem with hold | hnew
        · exact hclean m hold hsome
        · simp only [List.mem_singleton] at hnew
          subst hnew
          exact happ
      cases msg with
      | request server_request_id rebootEventId =>
        cases rebootEventId with
        | none => simp [sendAndReceiveLoop, get_event_id] at hrun
        | some r =>
          cases rel with
          | none => simp [sendAndReceiveLoop, get_event_id] at hrun
          | some related =>
            simp only [sendAndReceiveLoop, get_event_id] at hrun
            refine ih _ _
              (hnextclean ⟨.request (.strId r) (some r), some r, some related⟩
                rfl) ?_ _ _ hrun
            obtain ⟨wm', hwm', hterm'⟩ := hterm
            rcases List.mem_cons.mp hwm' with h | h
            · subst h; simp [isResponseOrError] at hterm'
            · exact ⟨wm', h, hterm'⟩
      | notif rebootEventId =>
        cases rebootEventId with
        | none => simp [sendAndReceiveLoop, get_event_id] at hrun
        | some r =>
          simp only [sendAndReceiveLoop, get_event_id, isResponseOrError,
            Bool.false_eq_true, if_false] at hrun
          refine ih _ _
            (hnextclean ⟨.notif (some r), some r, rel⟩ rfl) ?_ _ _ hrun
          obtain ⟨wm', hwm', hterm'⟩ := hterm
          rcases List.mem_cons.mp hwm' with h | h
          · subst h; simp [isResponseOrError] at hterm'
          · exact ⟨wm', h, hterm'⟩
      | response id =>
        simp only [sendAndReceiveLoop, get_event_id, isResponseOrError,
          if_true, Option.some.injEq, Prod.mk.injEq] at hrun
        refine ⟨stream₀, ⟨.response id, some (pyStr id), rel⟩,
          ?_, rfl, rfl, hclean⟩
        rw [← hrun.1]
        rfl
      | error id =>
        simp only [sendAndReceiveLoop, get_event_id, isResponseOrError,
          if_true, Option.some.injEq, Prod.mk.injEq] at hrun
        refine ⟨stream₀, ⟨.error id, some (pyStr id), rel⟩,
          ?_, rfl, rfl, hclean⟩
        rw [← hrun.1]
        rfl
  obtain ⟨pre, t, hsplit, hsome, htterm, hpre⟩ :=
    main outbound stream₀ wri₀ hclean hterm stream₁ wri₁ hrun
  refine ⟨⟨pre, t, hsplit, hsome, htterm, hpre⟩, ?_⟩
  subst hsplit
  obtain ⟨e, he⟩ := Option.isSome_iff_exists.mp hsome
  have hpreflt :
      ((streamEvents pre).filter
        (fun ev => isResponseOrError ev.message)).length = 0 := by
    rw [List.length_eq_zero, List.filter_eq_nil_iff]
    intro ev hev
    obtain ⟨m, hmem, hm⟩ := List.mem_filterMap.mp hev
    obtain ⟨e', he', hmk⟩ := Option.map_eq_some'.mp hm
    have := hpre m hmem (by simp [he'])
    simp [← hmk, this]
  rw [streamEvents, List.filterMap_append]
  rw [List.filter_append, List.length_append]
  rw [streamEvents] at hpreflt
  rw [hpreflt]
  simp [streamEvents, he, htterm]

/-- C1 witness: a concrete run (a progress notification then the final
response) leaves exactly one terminal event, and it is last. -/
theorem c1_unique_terminal_witness :
    (∀ m ∈ [(⟨.request (.strId "1") none, none, none⟩ : StoredMessage)],
      m.event_id.isSome → isResponseOrError m.message = false) ∧
    (∃ wm ∈ [(⟨.notif (some "n1"), some "1"⟩ : SessionMessage),
             ⟨.response (.strId "1"), none⟩],
      isResponseOrError wm.message = true) ∧
    ((∃ pre t,
      [(⟨.request (.strId "1") none, none, none⟩ : StoredMessage),
       ⟨.notif (some "n1"), some "n1", some "1"⟩,
       ⟨.response (.strId "1"), some "1", none⟩] = pre ++ [t] ∧
      t.event_id.isSome ∧ isResponseOrError t.message = true ∧
      ∀ m ∈ pre, m.event_id.isSome → isResponseOrError m.message = false) ∧
    ((streamEvents
      [⟨.request (.strId "1") none, none, none⟩,
       ⟨.notif (some "n1"), some "n1", some "1"⟩,
       ⟨.response (.strId "1"), some "1", none⟩]).filter
      (fun ev => isResponseOrError ev.message)).length = 1) :=
  ⟨by decide, by decide,
    c1_unique_terminal
      [⟨.notif (some "n1"), some "1"⟩, ⟨.response (.strId "1"), none⟩]
      [⟨.request (.strId "1") none, none, none⟩] _ [] []
      (by decide) (by decide) (by decide)⟩

/-! ## C3: inner event ids of stored outbound messages -/

/-- The id discipline actually implemented: a stored outbound event carries
the stringified request id when it is a `JSONRPCResponse`/`JSONRPCError`,
and otherwise the `params._meta.rebootEventId` its message supplied (for a
server-initiated request the JSON-RPC id is additionally rewritten to that
event id before storing). -/
def eventIdRule (m : StoredMessage) : Prop :=
  ∃ e, m.event_id = some e ∧
    ((∃ id, m.message = .response id ∧ e = pyStr id) ∨
     (∃ id, m.message = .error id ∧ e = pyStr id) ∨
     m.message = .notif (some e) ∨
     m.message = .request (.strId e) (some e))

/-- C3 counterexample.  A notification whose params carry no
`rebootEventId` does not get a fresh random event id: `get_event_id`
fails its assertion (no id is produced at all), and the
`send_and_receive` loop aborts rather than storing the message with any
id. -/
theorem c3_no_fresh_random_id_counterexample :
    get_event_id (.notif none) = none ∧
    sendAndReceiveLoop [⟨.notif none, none⟩] [] [] = none :=
  ⟨rfl, rfl⟩

/-- C3 amended.  Every message stored by a completed `send_and_receive`
run obeys the implemented id rule (`eventIdRule`): stringified request id
for responses/errors, and the supplied `rebootEventId` for notifications
and requests — there is no fallback for messages carrying none. -/
theorem c3_event_id_rule (outbound : List SessionMessage)
    (stream₀ stream₁ : List StoredMessage)
    (wri₀ wri₁ : List WriteRequestId)
    (hrun : sendAndReceiveLoop outbound stream₀ wri₀ = some (stream₁, wri₁)) :
    ∃ appended, stream₁ = stream₀ ++ appended ∧
      ∀ m ∈ appended, eventIdRule m := by
  induction outbound generalizing stream₀ wri₀ with
  | nil =>
    simp only [sendAndReceiveLoop, Option.some.injEq, Prod.mk.injEq] at hrun
    exact ⟨[], by simp [← hrun.1], by simp⟩
  | cons wm rest ih =>
    obtain ⟨msg, rel⟩ := wm
    have append_case : ∀ (x : StoredMessage) (wri' : List WriteRequestId),
        eventIdRule x →
        sendAndReceiveLoop rest (stream₀ ++ [x]) wri' = some (stream₁, wri₁) →
        ∃ appended, stream₁ = stream₀ ++ appended ∧
          ∀ m ∈ appended, eventIdRule m := by
      intro x wri' hx hrun'
      obtain ⟨app', heq, hall⟩ := ih _ _ hrun'
      refine ⟨x :: app', by rw [heq]; simp, ?_⟩
      intro m hm
      rcases List.mem_cons.mp hm with h | h
      · subst h; exact hx
      · exact hall m h
    cases msg with
    | request server_request_id rebootEventId =>
      cases rebootEventId with
      | none => simp [sendAndReceiveLoop, get_event_id] at hrun
      | some r =>
        cases rel with
        | none => simp [sendAndReceiveLoop, get_event_id] at hrun
        | some related =>
          simp only [sendAndReceiveLoop, get_event_id] at hrun
          exact append_case _ _
            ⟨r, rfl, Or.inr (Or.inr (Or.inr rfl))⟩ hrun
    | notif rebootEventId =>
      cases rebootEventId with
      | none => simp [sendAndReceiveLoop, get_event_id] at hrun
      | some r =>
        simp only [sendAndReceiveLoop, get_event_id, isResponseOrError,
          Bool.false_eq_true, if_false] at hrun
        exact append_case _ _
          ⟨r, rfl, Or.inr (Or.inr (Or.inl rfl))⟩ hrun
    | response id =>
      simp only [sendAndReceiveLoop, get_event_id, isResponseOrError,
        if_true, Option.some.injEq, Prod.mk.injEq] at hrun
      refine ⟨[⟨.response id, some (pyStr id), rel⟩], by rw [← hrun.1]; rfl, ?_⟩
      intro m hm
      simp only [List.mem_singleton] at hm
      subst hm
      exact ⟨pyStr id, rfl, Or.inl ⟨id, rfl, rfl⟩⟩
    | error id =>
      simp only [sendAndReceiveLoop, get_event_id, isResponseOrError,
        if_true, Option.some.injEq, Prod.mk.injEq] at hrun
      refine ⟨[⟨.error id, some (pyStr id), rel⟩], by rw [← hrun.1]; rfl, ?_⟩
      intro m hm
      simp only [List.mem_singleton] at hm
      subst hm
      exact ⟨pyStr id, rfl, Or.inr (Or.inl ⟨id, rfl, rfl⟩)⟩

/-- C3 witness: a concrete completed run whose appended messages all obey
the implemented id rule. -/
theorem c3_event_id_rule_witness :
    sendAndReceiveLoop
      [⟨.notif (some "n"), none⟩, ⟨.error (.strId "7"), none⟩] [] [] =
      some ([⟨.notif (some "n"), some "n", none⟩,
             ⟨.error (.strId "7"), some "7", none⟩], []) ∧
    ∃ appended,
      [(⟨.notif (some "n"), some "n", none⟩ : StoredMessage),
       ⟨.error (.strId "7"), some "7", none⟩] = [] ++ appended ∧
      ∀ m ∈ appended, eventIdRule m :=
  ⟨rfl, c3_event_id_rule
    [⟨.notif (some "n"), none⟩, ⟨.error (.strId "7"), none⟩] [] _ [] [] rfl⟩

/-! ## C5: `cancel_outstanding_requests`
(`src/reboot/mcp/servicers/session.py`, `Run`) -/

/-- Whether this stored message puts its event id into
`outstanding_event_ids`: it is a `JSONRPCRequest` and `HasField("event_id")`
(only server-initiated requests are stored with an `event_id`). -/
def addsId (m : StoredMessage) (e : String) : Bool :=
  (match m.message with
   | .request _ _ => true
   | _ => false) && (m.event_id == some e)

/-- Whether this stored message discards `e` from `outstanding_event_ids`:
it is a `JSONRPCResponse` and `str(root.id)` equals `e`. -/
def removesId (m : StoredMessage) (e : String) : Bool :=
  match m.message with
  | .response id => pyStr id == e
  | _ => false

/-- One iteration of the `for message in response.messages` loop of
`cancel_outstanding_requests`: add the event id of a stored
`JSONRPCRequest` bearing one, then discard the stringified id of a stored
`JSONRPCResponse`. -/
def outstandingStep (s : Finset String) (m : StoredMessage) : Finset String :=
  let s₁ :=
    match m.message, m.event_id with
    | .request _ _, some e => insert e s
    | _, _ => s
  match m.message with
  | .response id => s₁.erase (pyStr id)
  | _ => s₁

/-- The `outstanding_event_ids` set computed by
`cancel_outstanding_requests` from the stream's stored messages. -/
def outstandingEventIds (messages : List StoredMessage) : Finset String :=
  messages.foldl outstandingStep ∅

/-- The synthesized `CancelledNotification` for one outstanding event id:
reason `"Server rebooted"`, `requestId` the event id,
`params._meta.rebootEventId` `"cancelled-<event_id>"`, related to the
original client request. -/
structure CancelledNotification where
  reason : String
  requestId : String
  rebootEventId : String
  related_request_id : String
  deriving DecidableEq, Repr

def cancelNotification (request_id : RId) (event_id : String) :
    CancelledNotification :=
  ⟨"Server rebooted", event_id, "cancelled-" ++ event_id, pyStr request_id⟩

/-- Embeds `cancel_outstanding_requests`: one synthesized cancellation per
outstanding event id (a Python `set`, so no duplicates). -/
def cancel_outstanding_requests (request_id : RId)
    (messages : List StoredMessage) : Finset CancelledNotification :=
  (outstandingEventIds messages).image (cancelNotification request_id)

theorem addsId_removesId_exclusive (m : StoredMessage) (e : String)
    (h : addsId m e = true) : removesId m e = false := by
  cases hm : m.message <;> simp [addsId, removesId, hm] at h ⊢

theorem mem_outstandingStep (s : Finset String) (m : StoredMessage)
    (e : String) :
    e ∈ outstandingStep s m ↔
      addsId m e = true ∨ (e ∈ s ∧ removesId m e = false) := by
  obtain ⟨msg, eid, rel⟩ := m
  cases msg with
  | request id reboot =>
    cases eid with
    | none => simp [outstandingStep, addsId, removesId]
    | some e' =>
      simp only [outstandingStep, addsId, removesId, Finset.mem_insert,
        Bool.true_and, beq_iff_eq, Option.some.injEq]
      constructor
      · rintro (h | h)
        · exact Or.inl h.symm
        · exact Or.inr ⟨h, trivial⟩
      · rintro (h | ⟨h, -⟩)
        · exact Or.inl h.symm
        · exact Or.inr h
  | notif reboot => simp [outstandingStep, addsId, removesId]
  | response id =>
    simp only [outstandingStep, addsId, removesId, Finset.mem_erase,
      Bool.false_and, Bool.false_eq_true, false_or, beq_eq_false_iff_ne,
      ne_eq]
    constructor
    · rintro ⟨h1, h2⟩
      exact ⟨h2, fun hc => h1 hc.symm⟩
    · rintro ⟨h1, h2⟩
      exact ⟨fun hc => h2 hc.symm, h1⟩
  | error id => simp [outstandingStep, addsId, removesId]

theorem mem_foldl_outstandingStep (e : String) :
    ∀ (messages : List StoredMessage) (s : Finset String),
    (∀ i j : Fin messages.length, i < j →
      removesId (messages.get i) e = true →
      addsId (messages.get j) e = false) →
    (e ∈ messages.foldl outstandingStep s ↔
      ((e ∈ s ∨ ∃ m ∈ messages, addsId m e = true) ∧
        ∀ m ∈ messages, removesId m e = false)) := by
  intro messages
  induction messages with
  | nil => intro s _; simp
  | cons m rest ih =>
    intro s horder
    have horder' : ∀ i j : Fin rest.length, i < j →
        removesId (rest.get i) e = true → addsId (rest.get j) e = false := by
      intro i j hij hrem
      have := horder i.succ j.succ (by simpa using hij)
      simpa using this (by simpa using hrem)
    have hhead : removesId m e = true → ∀ m' ∈ rest, addsId m' e = false := by
      intro hrem m' hm'
      obtain ⟨j, hj⟩ := List.mem_iff_get.mp hm'
      have h0 := horder (⟨0, Nat.succ_pos _⟩ : Fin (rest.length + 1)) j.succ
        (Fin.pos_iff_ne_zero.mpr (Fin.succ_ne_zero j))
      rw [← hj]
      simpa using h0 (by simpa using hrem)
    rw [List.foldl_cons, ih _ horder', mem_outstandingStep]
    constructor
    · rintro ⟨(hma | ⟨hs, hrm⟩) | ⟨m', hm', hadds'⟩, hnr⟩
      · refine ⟨Or.inr ⟨m, by simp, hma⟩, ?_⟩
        intro m'' hm''
        rcases List.mem_cons.mp hm'' with h | h
        · subst h; exact addsId_removesId_exclusive _ _ hma
        · exact hnr m'' h
      · refine ⟨Or.inl hs, ?_⟩
        intro m'' hm''
        rcases List.mem_cons.mp hm'' with h | h
        · subst h; exact hrm
        · exact hnr m'' h
      · have hmr : removesId m e = false := by
          by_contra hc
          rw [Bool.not_eq_false] at hc
          rw [hhead hc m' hm'] at hadds'
          exact Bool.false_ne_true hadds'
        refine ⟨Or.inr ⟨m', by simp [hm'], hadds'⟩, ?_⟩
        intro m'' hm''
        rcases List.mem_cons.mp hm'' with h | h
        · subst h; exact hmr
        · exact hnr m'' h
    · rintro ⟨hin, hnr⟩
      have hmr : removesId m e = false := hnr m (by simp)
      have hnr' : ∀ m' ∈ rest, removesId m' e = false := by
        intro m' hm'; exact hnr m' (by simp [hm'])
      rcases hin with hs | ⟨m', hm', hadds'⟩
      · exact ⟨Or.inl (Or.inr ⟨hs, hmr⟩), hnr'⟩
      · rcases List.mem_cons.mp hm' with h | h
        · subst h; exact ⟨Or.inl (Or.inl hadds'), hnr'⟩
        · exact ⟨Or.inr ⟨m', h, hadds'⟩, hnr'⟩

/-- C5.  Provided responses for an event id are only ever stored after the
server-initiated request bearing that id (append order), the set of event
ids that `cancel_outstanding_requests` cancels contains `e` exactly when
some stored message is a `JSONRPCRequest` carrying `event_id = e` and no
stored `JSONRPCResponse` has `e` as its stringified id; one
`CancelledNotification` is synthesized per such id, with reason
`"Server rebooted"`, `requestId` the event id, and `rebootEventId`
`"cancelled-<event_id>"`.  Stored client requests carry no `event_id` and
are never cancelled. -/
theorem c5_cancel_outstanding (request_id : RId)
    (messages : List StoredMessage) (e : String)
    (horder : ∀ i j : Fin messages.length, i < j →
      removesId (messages.get i) e = true →
      addsId (messages.get j) e = false) :
    (e ∈ outstandingEventIds messages ↔
      (∃ m ∈ messages, addsId m e = true) ∧
        ∀ m ∈ messages, removesId m e = false) ∧
    (cancelNotification request_id e ∈
        cancel_outstanding_requests request_id messages ↔
      e ∈ outstandingEventIds messages) ∧
    (cancelNotification request_id e).reason = "Server rebooted" ∧
    (cancelNotification request_id e).requestId = e ∧
    (cancelNotification request_id e).rebootEventId = "cancelled-" ++ e := by
  refine ⟨?_, ?_, rfl, rfl, rfl⟩
  · rw [outstandingEventIds, mem_foldl_outstandingStep e messages ∅ horder]
    simp
  · constructor
    · intro h
      obtain ⟨e', he', heq⟩ := Finset.mem_image.mp h
      have : e' = e := congrArg CancelledNotification.requestId heq
      rwa [← this]
    · intro h
      exact Finset.mem_image_of_mem _ h

/-- C5 witness: a stream holding the client request (no `event_id`), an
answered server request, and an unanswered one; only the unanswered id is
outstanding. -/
theorem c5_cancel_outstanding_witness :
    (∀ i j : Fin ([(⟨.request (.strId "1") none, none, none⟩ : StoredMessage),
        ⟨.request (.strId "a") (some "a"), some "a", some "1"⟩,
        ⟨.request (.strId "b") (some "b"), some "b", some "1"⟩,
        ⟨.response (.strId "a"), none, none⟩] : List StoredMessage).length,
      i < j →
      removesId (([(⟨.request (.strId "1") none, none, none⟩ : StoredMessage),
        ⟨.request (.strId "a") (some "a"), some "a", some "1"⟩,
        ⟨.request (.strId "b") (some "b"), some "b", some "1"⟩,
        ⟨.response (.strId "a"), none, none⟩] : List StoredMessage).get i) "b" = true →
      addsId (([(⟨.request (.strId "1") none, none, none⟩ : StoredMessage),
        ⟨.request (.strId "a") (some "a"), some "a", some "1"⟩,
        ⟨.request (.strId "b") (some "b"), some "b", some "1"⟩,
        ⟨.response (.strId "a"), none, none⟩] : List StoredMessage).get j) "b" = false) ∧
    (("b" ∈ outstandingEventIds
        [⟨.request (.strId "1") none, none, none⟩,
         ⟨.request (.strId "a") (some "a"), some "a", some "1"⟩,
         ⟨.request (.strId "b") (some "b"), some "b", some "1"⟩,
         ⟨.response (.strId "a"), none, none⟩] ↔
      (∃ m ∈ ([(⟨.request (.strId "1") none, none, none⟩ : StoredMessage),
         ⟨.request (.strId "a") (some "a"), some "a", some "1"⟩,
         ⟨.request (.strId "b") (some "b"), some "b", some "1"⟩,
         ⟨.response (.strId "a"), none, none⟩] : List StoredMessage),
          addsId m "b" = true) ∧
        ∀ m ∈ ([(⟨.request (.strId "1") none, none, none⟩ : StoredMessage),
         ⟨.request (.strId "a") (some "a"), some "a", some "1"⟩,
         ⟨.request (.strId "b") (some "b"), some "b", some "1"⟩,
         ⟨.response (.strId "a"), none, none⟩] : List StoredMessage),
          removesId m "b" = false) ∧
    (cancelNotification (.strId "1") "b" ∈
        cancel_outstanding_requests (.strId "1")
          [⟨.request (.strId "1") none, none, none⟩,
           ⟨.request (.strId "a") (some "a"), some "a", some "1"⟩,
           ⟨.request (.strId "b") (some "b"), some "b", some "1"⟩,
           ⟨.response (.strId "a"), none, none⟩] ↔
      "b" ∈ outstandingEventIds
        [⟨.request (.strId "1") none, none, none⟩,
         ⟨.request (.strId "a") (some "a"), some "a", some "1"⟩,
         ⟨.request (.strId "b") (some "b"), some "b", some "1"⟩,
         ⟨.response (.strId "a"), none, none⟩]) ∧
    (cancelNotification (.strId "1") "b").reason = "Server rebooted" ∧
    (cancelNotification (.strId "1") "b").requestId = "b" ∧
    (cancelNotification (.strId "1") "b").rebootEventId = "cancelled-" ++ "b") :=
  ⟨by decide, c5_cancel_outstanding (.strId "1") _ "b" (by decide)⟩

/-! ## C7: number normalization on decode
(`src/reboot/mcp/event_store.py`, `replace_whole_floats_with_ints`) -/

/-- A Python/JSON value as stored through JSON-over-protobuf.  Python
floats are finite IEEE doubles, which are rationals: a float satisfies
`value == int(value)` exactly when its rational value has denominator 1. -/
inductive PyVal where
  | int (n : ℤ)
  | float (q : ℚ)
  | str (s : String)
  | bool (b : Bool)
  | pyNone
  | list (xs : List PyVal)
  | dict (entries : List (String × PyVal))
  deriving Repr

mutual

/-- The per-value branch of the `for key, value in d.items()` loop of
`replace_whole_floats_with_ints`: a whole float becomes the equal int, a
nested dict is recursed into, everything else (including lists) is kept
as is. -/
def coerceValue : PyVal → PyVal
  | .float q => if q.den = 1 then .int q.num else .float q
  | .dict d => .dict (replace_whole_floats_with_ints d)
  | v => v

/-- Embeds `replace_whole_floats_with_ints` of
`src/reboot/mcp/event_store.py` on a dictionary (association list). -/
def replace_whole_floats_with_ints :
    List (String × PyVal) → List (String × PyVal)
  | [] => []
  | (k, v) :: rest => (k, coerceValue v) :: replace_whole_floats_with_ints rest

end

mutual

/-- Models the encoding of a stored message through JSON-over-protobuf
(`from_model` into a proto `Value`, later read back with `as_dict`):
protobuf represents every JSON number as a double, so integers come back
as whole floats — the docstring of `replace_whole_floats_with_ints`:
"protobuf always renders the value `1.0` even if it was originally
passed `1`". -/
def encodeValue : PyVal → PyVal
  | .int n => .float (n : ℚ)
  | .list xs => .list (encodeValueList xs)
  | .dict d => .dict (encodeValueEntries d)
  | v => v

def encodeValueList : List PyVal → List PyVal
  | [] => []
  | v :: rest => encodeValue v :: encodeValueList rest

def encodeValueEntries : List (String × PyVal) → List (String × PyVal)
  | [] => []
  | (k, v) :: rest => (k, encodeValue v) :: encodeValueEntries rest

end

mutual

/-- Values left unchanged by the protobuf number encoding: no `int`
occurs anywhere inside. -/
def encodeFixed : PyVal → Bool
  | .int _ => false
  | .list xs => encodeFixedList xs
  | .dict d => encodeFixedEntries d
  | _ => true

def encodeFixedList : List PyVal → Bool
  | [] => true
  | v :: rest => encodeFixed v && encodeFixedList rest

def encodeFixedEntries : List (String × PyVal) → Bool
  | [] => true
  | (_, v) :: rest => encodeFixed v && encodeFixedEntries rest

end

mutual

/-- Values at a dictionary-value position that survive the
encode-then-normalize round trip: ints are fine (coerced back), whole
floats are not (they come back as ints), and anything inside a list must
contain no int at all, because `replace_whole_floats_with_ints` never
looks inside lists. -/
def roundTrippable : PyVal → Bool
  | .int _ => true
  | .float q => decide (q.den ≠ 1)
  | .list xs => encodeFixedList xs
  | .dict d => roundTrippableEntries d
  | _ => true

def roundTrippableEntries : List (String × PyVal) → Bool
  | [] => true
  | (_, v) :: rest => roundTrippable v && roundTrippableEntries rest

end

mutual

/-- Whether an integral-valued float occurs anywhere inside the value,
lists and dicts included. -/
def hasWholeFloat : PyVal → Bool
  | .float q => decide (q.den = 1)
  | .list xs => hasWholeFloatList xs
  | .dict d => hasWholeFloatEntries d
  | _ => false

def hasWholeFloatList : List PyVal → Bool
  | [] => false
  | v :: rest => hasWholeFloat v || hasWholeFloatList rest

def hasWholeFloatEntries : List (String × PyVal) → Bool
  | [] => false
  | (_, v) :: rest => hasWholeFloat v || hasWholeFloatEntries rest

end

mutual

theorem encodeValue_of_fixed : ∀ v, encodeFixed v = true → encodeValue v = v
  | .int _, h => by simp [encodeFixed] at h
  | .float _, _ => rfl
  | .str _, _ => rfl
  | .bool _, _ => rfl
  | .pyNone, _ => rfl
  | .list xs, h => by
    rw [encodeValue,
      encodeValueList_of_fixed xs (by simpa [encodeFixed] using h)]
  | .dict d, h => by
    rw [encodeValue,
      encodeValueEntries_of_fixed d (by simpa [encodeFixed] using h)]

theorem encodeValueList_of_fixed :
    ∀ xs, encodeFixedList xs = true → encodeValueList xs = xs
  | [], _ => rfl
  | v :: rest, h => by
    rw [encodeFixedList, Bool.and_eq_true] at h
    rw [encodeValueList, encodeValue_of_fixed v h.1,
      encodeValueList_of_fixed rest h.2]

theorem encodeValueEntries_of_fixed :
    ∀ d, encodeFixedEntries d = true → encodeValueEntries d = d
  | [], _ => rfl
  | (k, v) :: rest, h => by
    rw [encodeFixedEntries, Bool.and_eq_true] at h
    rw [encodeValueEntries, encodeValue_of_fixed v h.1,
      encodeValueEntries_of_fixed rest h.2]

end

mutual

theorem coerceValue_encode :
    ∀ v, roundTrippable v = true → coerceValue (encodeValue v) = v
  | .int n, _ => by
    simp [encodeValue, coerceValue, Rat.den_intCast, Rat.num_intCast]
  | .float q, h => by
    rw [roundTrippable, decide_eq_true_iff] at h
    simp [encodeValue, coerceValue, h]
  | .str _, _ => rfl
  | .bool _, _ => rfl
  | .pyNone, _ => rfl
  | .list xs, h => by
    rw [roundTrippable] at h
    rw [encodeValue, encodeValueList_of_fixed xs h]
    rfl
  | .dict d, h => by
    rw [roundTrippable] at h
    rw [encodeValue, coerceValue, replaceWholeFloats_encode d h]

theorem replaceWholeFloats_encode :
    ∀ d, roundTrippableEntries d = true →
      replace_whole_floats_with_ints (encodeValueEntries d) = d
  | [], _ => rfl
  | (k, v) :: rest, h => by
    rw [roundTrippableEntries, Bool.and_eq_true] at h
    rw [encodeValueEntries, replace_whole_floats_with_ints,
      coerceValue_encode v h.1, replaceWholeFloats_encode rest h.2]

end

theorem coerced_mem : ∀ (d : List (String × PyVal)) (k : String) (q : ℚ),
    (k, PyVal.float q) ∈ d → q.den = 1 →
    (k, PyVal.int q.num) ∈ replace_whole_floats_with_ints d
  | [], _, _, h, _ => absurd h (List.not_mem_nil _)
  | (k', v') :: rest, k, q, h, hden => by
    rcases List.mem_cons.mp h with heq | htail
    · cases heq
      rw [replace_whole_floats_with_ints]
      have : coerceValue (PyVal.float q) = PyVal.int q.num := by
        simp [coerceValue, hden]
      rw [this]
      exact List.mem_cons_self _ _
    · rw [replace_whole_floats_with_ints]
      exact List.mem_cons_of_mem _ (coerced_mem rest k q htail hden)

/-- C7 counterexample.  An integral float nested inside an array is not
coerced (the decode only recurses into dicts), so a message whose
integral numeric field sits inside an array does not equal the original
after a store/replay round trip: `{"values": [1]}` encodes to
`{"values": [1.0]}` and decodes unchanged, still holding the integral
float. -/
theorem c7_list_float_counterexample :
    replace_whole_floats_with_ints [("values", .list [.float 1])] =
      [("values", .list [.float 1])] ∧
    hasWholeFloat (.dict (replace_whole_floats_with_ints
      [("values", .list [.float 1])])) = true ∧
    replace_whole_floats_with_ints
      (encodeValueEntries [("values", .list [.int 1])]) ≠
      [("values", .list [.int 1])] :=
  ⟨rfl, rfl, by
    simp [encodeValueEntries, encodeValue, encodeValueList,
      replace_whole_floats_with_ints, coerceValue]⟩

/-- C7 amended.  On decode, every floating-point field whose value is
integral *at a dictionary-value position reachable through nested
dictionaries* is coerced to the equal integer (values inside arrays are
left untouched); consequently a message whose integral numerics occur
only at such positions and whose remaining floats are non-integral
equals the original after the encode/decode round trip. -/
theorem c7_whole_float_normalization (d : List (String × PyVal)) :
    (∀ k q, (k, PyVal.float q) ∈ d → q.den = 1 →
      (k, PyVal.int q.num) ∈ replace_whole_floats_with_ints d) ∧
    (roundTrippableEntries d = true →
      replace_whole_floats_with_ints (encodeValueEntries d) = d) :=
  ⟨fun k q hmem hden => coerced_mem d k q hmem hden,
   fun h => replaceWholeFloats_encode d h⟩

/-- C7 witness: a whole float at a dict position is coerced, and a
message with integer fields (one nested in a sub-dict) round-trips. -/
theorem c7_whole_float_normalization_witness :
    (("progress", PyVal.int 1) ∈ replace_whole_floats_with_ints
      [("progress", PyVal.float 1)]) ∧
    replace_whole_floats_with_ints (encodeValueEntries
      [("total", PyVal.int 2),
       ("meta", PyVal.dict [("count", PyVal.int 3)]),
       ("label", PyVal.str "x")]) =
      [("total", PyVal.int 2),
       ("meta", PyVal.dict [("count", PyVal.int 3)]),
       ("label", PyVal.str "x")] :=
  ⟨(c7_whole_float_normalization [("progress", PyVal.float 1)]).1
      "progress" 1 (List.mem_singleton.mpr rfl) rfl,
   (c7_whole_float_normalization _).2 (by rfl)⟩

/-! ## C8: the VSCode sentinel `Last-Event-ID`
(`src/reboot/mcp/server.py`, `StreamableHTTPASGIApp.__call__`, and
`src/reboot/mcp/event_store.py`, `replay_events_after`) -/

/-- Python `str.split(sep)` for a one-character separator. -/
def pySplitAux (sep : Char) : List Char → List Char → List String
  | [], acc => [String.mk acc.reverse]
  | c :: cs, acc =>
    if c = sep then String.mk acc.reverse :: pySplitAux sep cs []
    else pySplitAux sep cs (c :: acc)

def pySplit (s : String) (sep : Char) : List String :=
  pySplitAux sep s.data []

/-- The first statement of `replay_events_after`:
`request_id, last_event_id = qualified_last_event_id.split("/")`.
Python raises `ValueError` unless the split yields exactly two parts;
the failure is modelled by `none`. -/
def replayEventsAfterSplit (qualified_last_event_id : String) :
    Option (String × String) :=
  match pySplit qualified_last_event_id '/' with
  | [request_id, last_event_id] => some (request_id, last_event_id)
  | _ => none

/-- The sentinel injected by `StreamableHTTPASGIApp.__call__` for a GET
from Visual Studio Code that carries no `Last-Event-ID` header. -/
def VSCODE_INITIAL_GET_LAST_EVENT_ID : String :=
  "VSCODE_INITIAL_GET_LAST_EVENT_ID"

/-- C8.  The sentinel contains no `/`, so `replay_events_after` fails to
unpack it (`ValueError`) and replays nothing — not the full aggregate
stream.  Moreover, even a qualified last event id that is absent from the
aggregate stream makes the stream servicer's `Replay` return no events at
all (shown on a concrete nonempty `VSCODE_GET` stream), rather than the
stream from the beginning. -/
theorem c8_vscode_sentinel_replays_nothing :
    replayEventsAfterSplit VSCODE_INITIAL_GET_LAST_EVENT_ID = none ∧
    pySplit VSCODE_INITIAL_GET_LAST_EVENT_ID '/' =
      [VSCODE_INITIAL_GET_LAST_EVENT_ID] ∧
    Replay [⟨.notif (some "n1"), some "a", none⟩,
            ⟨.notif (some "n2"), some "b", none⟩]
      (some VSCODE_INITIAL_GET_LAST_EVENT_ID) = [] ∧
    streamEvents [⟨.notif (some "n1"), some "a", none⟩,
                  ⟨.notif (some "n2"), some "b", none⟩] ≠ [] :=
  ⟨by decide, by decide, by decide, by decide⟩

/-- C2 witness: a concrete stream; replaying after the first notification
event id "a" yields exactly the later events. -/
theorem c2_replay_monotone_witness :
    (((streamEvents
        [⟨.request (.strId "1") none, none, none⟩,
         ⟨.notif (some "n1"), some "a", some "1"⟩,
         ⟨.notif (some "n2"), some "b", some "1"⟩,
         ⟨.response (.strId "1"), some "1", none⟩]).map Event.id).Nodup ∧
      "a" ∈ (streamEvents
        [⟨.request (.strId "1") none, none, none⟩,
         ⟨.notif (some "n1"), some "a", some "1"⟩,
         ⟨.notif (some "n2"), some "b", some "1"⟩,
         ⟨.response (.strId "1"), some "1", none⟩]).map Event.id) ∧
    (Replay [⟨.request (.strId "1") none, none, none⟩,
         ⟨.notif (some "n1"), some "a", some "1"⟩,
         ⟨.notif (some "n2"), some "b", some "1"⟩,
         ⟨.response (.strId "1"), some "1", none⟩] none =
      streamEvents [⟨.request (.strId "1") none, none, none⟩,
         ⟨.notif (some "n1"), some "a", some "1"⟩,
         ⟨.notif (some "n2"), some "b", some "1"⟩,
         ⟨.response (.strId "1"), some "1", none⟩] ∧
    ∃ pre ev suf, streamEvents
        [⟨.request (.strId "1") none, none, none⟩,
         ⟨.notif (some "n1"), some "a", some "1"⟩,
         ⟨.notif (some "n2"), some "b", some "1"⟩,
         ⟨.response (.strId "1"), some "1", none⟩] = pre ++ ev :: suf ∧
      ev.id = "a" ∧
      Replay [⟨.request (.strId "1") none, none, none⟩,
         ⟨.notif (some "n1"), some "a", some "1"⟩,
         ⟨.notif (some "n2"), some "b", some "1"⟩,
         ⟨.response (.strId "1"), some "1", none⟩] (some "a") = suf ∧
      (∀ ev' ∈ suf, ev'.id ≠ "a") ∧ (∀ ev' ∈ pre, ev' ∉ suf)) :=
  ⟨⟨by decide, by decide⟩,
    c2_replay_monotone _ "a" (by decide) (by decide)⟩

/-! ## Tool adapter (`src/reboot/mcp/server.py`) -/

/-- Appends the ` #<iteration>` suffix when the workflow is inside a loop
(`if context.within_loop(): event_alias += f" #{context.task.iteration}"`). -/
def withLoop (a : String) : Option Nat → String
  | none => a
  | some iteration => a ++ " #" ++ toString iteration

/-- The f-string alias of `report_progress` over the already-rendered
argument strings (Python renders each value with `str()`). -/
def progressAlias (progress total message : String) : String :=
  "report_progress(progress=" ++ progress ++ ", total=" ++ total ++
    ", message=" ++ message ++ ")"

/-- The f-string alias of `log`. -/
def logAlias (level message loggerName : String) : String :=
  "log(level=\x27" ++ level ++ "\x27, message=\x27" ++ message ++
    "\x27, logger_name=" ++ loggerName ++ ")"

/-- The f-string alias of `elicit`. -/
def elicitAlias (message schemaTypeName : String) : String :=
  "elicit(message=\x27" ++ message ++ "\x27, schema=" ++ schemaTypeName ++ ")"

/-- The alias built by `DurableSession._event_id`:
`f"{function_name}: {why}"`. -/
def listChangedAlias (function_name why : String) : String :=
  function_name ++ ": " ++ why

/-- The `notifications/progress` payload assembled by `report_progress`. -/
structure ProgressNotification where
  progressToken : String
  progress : String
  total : String
  message : String
  rebootEventId : String
  deriving DecidableEq, Repr

/-- Embeds `report_progress` of the wrapped tool context
(`src/reboot/mcp/server.py`).  `uuid5Hex ns n` stands for
`uuid5(ns, n).hex` of the Python `uuid` library.  When the originating
request carries no `progressToken` the function returns immediately:
no alias is recorded and nothing is sent.  Otherwise a duplicate alias
raises `TypeError` (`.error ()`), else the alias is recorded and the
notification with the deterministic `rebootEventId` is sent. -/
def report_progress (uuid5Hex : String → String → String)
    (workflow_id : String) (progressToken : Option String)
    (progress total message : String) (iteration : Option Nat)
    (event_aliases : List String) :
    Except Unit (List String × Option ProgressNotification) :=
  match progressToken with
  | none => .ok (event_aliases, none)
  | some token =>
    let a := withLoop (progressAlias progress total message) iteration
    if a ∈ event_aliases then .error ()
    else .ok (a :: event_aliases,
      some ⟨token, progress, total, message, uuid5Hex workflow_id a⟩)

/-- C10.  With no `progressToken` on the originating request,
`report_progress` returns without sending, recording, or raising — so a
second identical call also succeeds; the duplicate-alias `TypeError` is
reachable only when a `progressToken` is present (shown by the second
conjunct: with a token, the first call with a fresh alias succeeds and an
identical second call errors). -/
theorem c10_no_progress_token_frame (uuid5Hex : String → String → String)
    (workflow_id : String) (progress total message : String)
    (iteration : Option Nat) (event_aliases : List String) :
    (report_progress uuid5Hex workflow_id none progress total message
        iteration event_aliases = .ok (event_aliases, none) ∧
      report_progress uuid5Hex workflow_id none progress total message
        iteration event_aliases = .ok (event_aliases, none)) ∧
    (∀ token,
      withLoop (progressAlias progress total message) iteration ∉
        event_aliases →
      report_progress uuid5Hex workflow_id (some token) progress total
          message iteration event_aliases =
        .ok (withLoop (progressAlias progress total message) iteration ::
              event_aliases,
          some ⟨token, progress, total, message,
            uuid5Hex workflow_id
              (withLoop (progressAlias progress total message) iteration)⟩) ∧
      report_progress uuid5Hex workflow_id (some token) progress total
          message iteration
          (withLoop (progressAlias progress total message) iteration ::
            event_aliases) = .error ()) := by
  refine ⟨⟨rfl, rfl⟩, ?_⟩
  intro token hfresh
  constructor
  · simp [report_progress, hfresh]
  · simp [report_progress]

/-- C10 witness: both no-token calls succeed unchanged at a concrete
input, and with a token present the duplicate errors. -/
theorem c10_no_progress_token_frame_witness :
    (report_progress (fun ns n => ns ++ "|" ++ n) "wf" none "0.5" "1.0"
        "None" none [] = .ok ([], none) ∧
      report_progress (fun ns n => ns ++ "|" ++ n) "wf" none "0.5" "1.0"
        "None" none [] = .ok ([], none)) ∧
    (withLoop (progressAlias "0.5" "1.0" "None") none ∉ ([] : List String) ∧
      report_progress (fun ns n => ns ++ "|" ++ n) "wf" (some "tok") "0.5"
          "1.0" "None" none
          (withLoop (progressAlias "0.5" "1.0" "None") none :: []) =
        .error ()) :=
  ⟨(c10_no_progress_token_frame (fun ns n => ns ++ "|" ++ n) "wf" "0.5"
      "1.0" "None" none []).1,
   by decide,
   ((c10_no_progress_token_frame (fun ns n => ns ++ "|" ++ n) "wf" "0.5"
      "1.0" "None" none []).2 "tok" (by decide)).2⟩

/-! ## C9: `_wrap_tool` signature handling -/

/-- A handler parameter as `_wrap_tool` inspects it: its name and whether
its annotation is a class that `issubclass`es `fastmcp.Context`
respectively `DurableContext`.  (`DurableContext` itself does not
subclass `fastmcp.Context`.) -/
structure Param where
  name : String
  isContextType : Bool
  isDurableContextType : Bool
  deriving DecidableEq, Repr

/-- The always-injected leading parameter
`inspect.Parameter("ctx", annotation=fastmcp.Context)`. -/
def contextParam : Param := ⟨"ctx", true, false⟩

/-- The `for parameter_name, parameter in signature.parameters.items()`
loop of `_wrap_tool`: raise `TypeError` on a `fastmcp.Context`-annotated
parameter, collect `DurableContext`-annotated names, keep the rest. -/
def wrapToolScan : List Param → Except Unit (List Param × List String)
  | [] => .ok ([], [])
  | p :: rest =>
    if p.isContextType then .error ()
    else if p.isDurableContextType then
      (wrapToolScan rest).map (fun r => (r.1, p.name :: r.2))
    else
      (wrapToolScan rest).map (fun r => (p :: r.1, r.2))

/-- Embeds `_wrap_tool`'s signature computation: the wrapped signature is
the injected `ctx` parameter followed by the original parameters minus the
`DurableContext`-annotated ones, whose names are collected as
`context_parameter_names`. -/
def _wrap_tool (params : List Param) :
    Except Unit (List Param × List String) :=
  (wrapToolScan params).map (fun r => (contextParam :: r.1, r.2))

/-- Modelled from the spec: the MCP engine's schema derivation (the
external `fastmcp` engine receiving the wrapped signature) "excludes the
durable-context parameter … so clients see the intended parameter set" —
fastmcp drops parameters annotated with its `Context` type from the
derived schema. -/
def schemaParameters (params : List Param) : List Param :=
  params.filter (fun p => !p.isContextType)

/-- The binding performed at invocation: `kwargs[name] = context` for
each collected `DurableContext` parameter name before
`signature.bind(*args, **kwargs)`. -/
def boundArgumentValue {V : Type} (context_parameter_names : List String)
    (kwargs : String → Option V) (context : V) (name : String) : Option V :=
  if name ∈ context_parameter_names then some context else kwargs name

theorem wrapToolScan_error (params : List Param)
    (h : ∃ p ∈ params, p.isContextType = true) :
    wrapToolScan params = .error () := by
  induction params with
  | nil => obtain ⟨p, hp, -⟩ := h; exact absurd hp (List.not_mem_nil p)
  | cons p rest ih =>
    obtain ⟨p', hp', hctx⟩ := h
    rcases List.mem_cons.mp hp' with h | h
    · subst h; simp [wrapToolScan, hctx]
    · by_cases hpc : p.isContextType
      · simp [wrapToolScan, hpc]
      · simp [wrapToolScan, hpc, ih ⟨p', h, hctx⟩, Except.map]

theorem exceptMap_ok {ε α β : Type} (f : α → β) (x : Except ε α) (y : β)
    (h : Except.map f x = .ok y) : ∃ z, x = .ok z ∧ y = f z := by
  cases x with
  | error e => simp [Except.map] at h
  | ok z =>
    refine ⟨z, rfl, ?_⟩
    simpa [Except.map] using h.symm

theorem wrapToolScan_ok (params : List Param) :
    ∀ kept names, wrapToolScan params = .ok (kept, names) →
      (∀ p ∈ params, p.isContextType = false) ∧
      kept = params.filter (fun p => !p.isDurableContextType) ∧
      names = (params.filter
        (fun p => p.isDurableContextType)).map Param.name := by
  induction params with
  | nil =>
    intro kept names h
    simp only [wrapToolScan, Except.ok.injEq, Prod.mk.injEq] at h
    simp [← h.1, ← h.2]
  | cons p rest ih =>
    intro kept names h
    by_cases hpc : p.isContextType
    · simp [wrapToolScan, hpc] at h
    · by_cases hpd : p.isDurableContextType
      · rw [wrapToolScan, if_neg hpc, if_pos hpd] at h
        obtain ⟨z, hscan, hy⟩ := exceptMap_ok _ _ _ h
        obtain ⟨kept2, names2⟩ := z
        obtain ⟨hall, hkept, hnames⟩ := ih kept2 names2 hscan
        injection hy with hk hn
        refine ⟨?_, ?_, ?_⟩
        · intro q hq
          rcases List.mem_cons.mp hq with hh | hh
          · subst hh; simpa using hpc
          · exact hall q hh
        · rw [hk, hkept]
          simp [List.filter_cons, hpd]
        · rw [hn, hnames]
          simp [List.filter_cons, hpd]
      · have hpd2 : p.isDurableContextType = false := by simpa using hpd
        rw [wrapToolScan, if_neg hpc, if_neg hpd] at h
        obtain ⟨z, hscan, hy⟩ := exceptMap_ok _ _ _ h
        obtain ⟨kept2, names2⟩ := z
        obtain ⟨hall, hkept, hnames⟩ := ih kept2 names2 hscan
        injection hy with hk hn
        refine ⟨?_, ?_, ?_⟩
        · intro q hq
          rcases List.mem_cons.mp hq with hh | hh
          · subst hh; simpa using hpc
          · exact hall q hh
        · rw [hk, hkept]
          simp [List.filter_cons, hpd2]
        · rw [hn, hnames]
          simp [List.filter_cons, hpd2]


/-- C9.  A handler parameter annotated with the non-durable
`fastmcp.Context` (or a subclass) makes `_wrap_tool` raise `TypeError` at
wrap time.  Otherwise the wrapped signature, once the engine's schema
derivation drops its recognized context parameter, equals the original
signature with every `DurableContext`-annotated parameter removed, and at
invocation each removed parameter is bound to the single injected
`DurableContext` instance. -/
theorem c9_wrap_tool_signature (params : List Param) :
    ((∃ p ∈ params, p.isContextType = true) →
      _wrap_tool params = .error ()) ∧
    (∀ wrapped names, _wrap_tool params = .ok (wrapped, names) →
      schemaParameters wrapped =
        params.filter (fun p => !p.isDurableContextType) ∧
      names = (params.filter
        (fun p => p.isDurableContextType)).map Param.name ∧
      (∀ (V : Type) (kwargs : String → Option V) (context : V),
        ∀ p ∈ params, p.isDurableContextType = true →
          boundArgumentValue names kwargs context p.name = some context)) := by
  constructor
  · intro h
    rw [_wrap_tool, wrapToolScan_error params h]
    rfl
  · intro wrapped names h
    rw [_wrap_tool] at h
    cases hscan : wrapToolScan params with
    | error e => rw [hscan] at h; simp [Except.map] at h
    | ok r =>
      obtain ⟨kept2, names2⟩ := r
      rw [hscan] at h
      simp only [Except.map, Except.ok.injEq, Prod.mk.injEq] at h
      obtain ⟨hw, hn⟩ := h
      obtain ⟨hall, hkept, hnames⟩ := wrapToolScan_ok params kept2 names2 hscan
      refine ⟨?_, by rw [← hn, hnames], ?_⟩
      · rw [← hw, hkept]
        simp only [schemaParameters, List.filter_cons, contextParam,
          Bool.not_true, Bool.false_eq_true, if_false]
        rw [List.filter_filter]
        apply List.filter_congr
        intro p hp
        simp [hall p hp]
      · intro V kwargs context p hp hpd
        have hmemname : p.name ∈ names := by
          rw [← hn, hnames]
          exact List.mem_map_of_mem Param.name
            (List.mem_filter.mpr ⟨hp, by simp [hpd]⟩)
        simp [boundArgumentValue, hmemname]

/-- C9 witness: a handler with a `fastmcp.Context` parameter is rejected;
one with `(a, context : DurableContext)` wraps, its schema-visible
parameters are the original minus the durable context, whose name is
bound to the injected context value. -/
theorem c9_wrap_tool_signature_witness :
    ((∃ p ∈ [(⟨"ctx2", true, false⟩ : Param)], p.isContextType = true) ∧
      _wrap_tool [(⟨"ctx2", true, false⟩ : Param)] = .error ()) ∧
    (_wrap_tool [(⟨"a", false, false⟩ : Param), ⟨"context", false, true⟩] =
        .ok ([contextParam, ⟨"a", false, false⟩], ["context"]) ∧
      schemaParameters [contextParam, ⟨"a", false, false⟩] =
        [(⟨"a", false, false⟩ : Param)] ∧
      ["context"] = ([(⟨"a", false, false⟩ : Param),
          ⟨"context", false, true⟩].filter
        (fun p => p.isDurableContextType)).map Param.name ∧
      boundArgumentValue ["context"] (fun _ => (none : Option String)) "CTX"
        "context" = some "CTX") := by
  refine ⟨⟨⟨⟨"ctx2", true, false⟩, by decide, rfl⟩, ?_⟩, ?_⟩
  · exact (c9_wrap_tool_signature [(⟨"ctx2", true, false⟩ : Param)]).1
      ⟨⟨"ctx2", true, false⟩, by decide, rfl⟩
  · have h := (c9_wrap_tool_signature
      [(⟨"a", false, false⟩ : Param), ⟨"context", false, true⟩]).2
      [contextParam, ⟨"a", false, false⟩] ["context"] rfl
    exact ⟨rfl, h.1, h.2.1,
      h.2.2 String (fun _ => none) "CTX" ⟨"context", false, true⟩
        (by decide) rfl⟩

/-! ## C4: deterministic event ids for server-initiated events -/

/-- One server-initiated call a tool handler can make on its durable
context or session (the arguments already rendered to strings as the
f-strings do). -/
inductive ServerEventCall where
  | reportProgressCall (progressToken : Option String)
      (progress total message : String)
  | logCall (level message loggerName : String)
  | resourceListChanged (why : String)
  | toolListChanged (why : String)
  | promptListChanged (why : String)
  | elicitCall (message schemaTypeName : String)
  deriving DecidableEq, Repr

/-- The event alias each call builds before the duplicate check. -/
def callAlias : ServerEventCall → String
  | .reportProgressCall _ p t m => progressAlias p t m
  | .logCall l m ln => logAlias l m ln
  | .resourceListChanged why =>
    listChangedAlias "send_resource_list_changed" why
  | .toolListChanged why => listChangedAlias "send_tool_list_changed" why
  | .promptListChanged why => listChangedAlias "send_prompt_list_changed" why
  | .elicitCall m s => elicitAlias m s

/-- One emitted event: its alias, its inner event id, and whether it came
from `elicit` (whose wire event id is a fresh `uuid4`). -/
structure EventRecord where
  fromElicit : Bool
  eventAlias : String
  eventId : String
  deriving DecidableEq, Repr

/-- Runs a handler's sequence of server-initiated calls, each tagged with
its loop iteration when inside a loop.  `report_progress`, `log` and
`elicit` share the context's `_event_aliases` set; the
`send_*_list_changed` helpers use the `DurableSession`'s own set
(`DurableSession.__init__` creates a separate one).  Duplicate aliases
raise `TypeError` (`.error ()`).  Non-elicit events get
`uuid5(workflow_id, alias).hex`; each elicit wire send consumes the next
fresh random id (`uuid4().hex`, modelled by `seeds`). -/
def runServerEventCalls (uuid5Hex : String → String → String)
    (workflow_id : String) (seeds : Nat → String) :
    Nat → List String → List String → List (ServerEventCall × Option Nat) →
    Except Unit (List EventRecord)
  | _, _, _, [] => .ok []
  | k, ctxAliases, sessAliases, (c, iteration) :: rest =>
    match c with
    | .reportProgressCall none _ _ _ =>
      runServerEventCalls uuid5Hex workflow_id seeds k ctxAliases
        sessAliases rest
    | .reportProgressCall (some _) p t m =>
      let a := withLoop (progressAlias p t m) iteration
      if a ∈ ctxAliases then .error ()
      else
        (runServerEventCalls uuid5Hex workflow_id seeds k (a :: ctxAliases)
          sessAliases rest).map
          (fun out => ⟨false, a, uuid5Hex workflow_id a⟩ :: out)
    | .logCall l m ln =>
      let a := withLoop (logAlias l m ln) iteration
      if a ∈ ctxAliases then .error ()
      else
        (runServerEventCalls uuid5Hex workflow_id seeds k (a :: ctxAliases)
          sessAliases rest).map
          (fun out => ⟨false, a, uuid5Hex workflow_id a⟩ :: out)
    | .resourceListChanged why =>
      let a := withLoop (listChangedAlias "send_resource_list_changed" why)
        iteration
      if a ∈ sessAliases then .error ()
      else
        (runServerEventCalls uuid5Hex workflow_id seeds k ctxAliases
          (a :: sessAliases) rest).map
          (fun out => ⟨false, a, uuid5Hex workflow_id a⟩ :: out)
    | .toolListChanged why =>
      let a := withLoop (listChangedAlias "send_tool_list_changed" why)
        iteration
      if a ∈ sessAliases then .error ()
      else
        (runServerEventCalls uuid5Hex workflow_id seeds k ctxAliases
          (a :: sessAliases) rest).map
          (fun out => ⟨false, a, uuid5Hex workflow_id a⟩ :: out)
    | .promptListChanged why =>
      let a := withLoop (listChangedAlias "send_prompt_list_changed" why)
        iteration
      if a ∈ sessAliases then .error ()
      else
        (runServerEventCalls uuid5Hex workflow_id seeds k ctxAliases
          (a :: sessAliases) rest).map
          (fun out => ⟨false, a, uuid5Hex workflow_id a⟩ :: out)
    | .elicitCall m s =>
      let a := withLoop (elicitAlias m s) iteration
      if a ∈ ctxAliases then .error ()
      else
        (runServerEventCalls uuid5Hex workflow_id seeds (k + 1)
          (a :: ctxAliases) sessAliases rest).map
          (fun out => ⟨true, a, seeds k⟩ :: out)

/-- C4.  Two executions of the same call sequence with the same
`workflow_id` and loop-iteration counters — differing only in the fresh
random ids the runtime would draw — produce the same
`event_alias → event_id` mapping for the non-elicit server-initiated
events, and every such event id equals `uuid5(workflow_id, alias).hex`, a
pure function of the workflow id and the alias. -/
theorem c4_deterministic_event_ids (uuid5Hex : String → String → String)
    (workflow_id : String) (seeds₁ seeds₂ : Nat → String)
    (calls : List (ServerEventCall × Option Nat)) (k : Nat)
    (ctxAliases sessAliases : List String) (out₁ out₂ : List EventRecord)
    (h₁ : runServerEventCalls uuid5Hex workflow_id seeds₁ k ctxAliases
      sessAliases calls = .ok out₁)
    (h₂ : runServerEventCalls uuid5Hex workflow_id seeds₂ k ctxAliases
      sessAliases calls = .ok out₂) :
    out₁.filter (fun r => !r.fromElicit) =
      out₂.filter (fun r => !r.fromElicit) ∧
    ∀ r ∈ out₁, r.fromElicit = false →
      r.eventId = uuid5Hex workflow_id r.eventAlias := by
  induction calls generalizing k ctxAliases sessAliases out₁ out₂ with
  | nil =>
    simp only [runServerEventCalls, Except.ok.injEq] at h₁ h₂
    subst h₁; subst h₂
    exact ⟨rfl, by simp⟩
  | cons c rest ih =>
    obtain ⟨call, iteration⟩ := c
    have step :
        ∀ (a : String) (fromElicit : Bool) (id₁ id₂ : String)
          (k₁ k₂ : Nat) (ca sa : List String),
          (fromElicit = false → id₁ = uuid5Hex workflow_id a) →
          (fromElicit = false → id₂ = id₁) →
          (runServerEventCalls uuid5Hex workflow_id seeds₁ k₁ ca sa
            rest).map (fun out => (⟨fromElicit, a, id₁⟩ : EventRecord) :: out)
            = .ok out₁ →
          (runServerEventCalls uuid5Hex workflow_id seeds₂ k₂ ca sa
            rest).map (fun out => (⟨fromElicit, a, id₂⟩ : EventRecord) :: out)
            = .ok out₂ →
          k₁ = k₂ →
          out₁.filter (fun r => !r.fromElicit) =
            out₂.filter (fun r => !r.fromElicit) ∧
          ∀ r ∈ out₁, r.fromElicit = false →
            r.eventId = uuid5Hex workflow_id r.eventAlias := by
      intro a fromElicit id₁ id₂ k₁ k₂ ca sa hid₁ hid₂ hh₁ hh₂ hk
      subst hk
      obtain ⟨z₁, hz₁, hy₁⟩ := exceptMap_ok _ _ _ hh₁
      obtain ⟨z₂, hz₂, hy₂⟩ := exceptMap_ok _ _ _ hh₂
      obtain ⟨hfilter, hids⟩ := ih k₁ ca sa z₁ z₂ hz₁ hz₂
      subst hy₁; subst hy₂
      constructor
      · cases hfe : fromElicit with
        | true => simpa [List.filter_cons, hfe] using hfilter
        | false =>
          have : id₂ = id₁ := hid₂ hfe
          simp [List.filter_cons, hfe, this, hfilter]
      · intro r hr hrf
        rcases List.mem_cons.mp hr with hh | hh
        · subst hh
          simp only at hrf
          exact hid₁ hrf
        · exact hids r hh hrf
    cases call with
    | reportProgressCall progressToken p t m =>
      cases progressToken with
      | none =>
        simp only [runServerEventCalls] at h₁ h₂
        exact ih k ctxAliases sessAliases out₁ out₂ h₁ h₂
      | some token =>
        simp only [runServerEventCalls] at h₁ h₂
        by_cases hmem : withLoop (progressAlias p t m) iteration ∈ ctxAliases
        · rw [if_pos hmem] at h₁; exact absurd h₁ (by simp)
        · rw [if_neg hmem] at h₁ h₂
          exact step _ false _ _ k k _ _ (fun _ => rfl) (fun _ => rfl)
            h₁ h₂ rfl
    | logCall l m ln =>
      simp only [runServerEventCalls] at h₁ h₂
      by_cases hmem : withLoop (logAlias l m ln) iteration ∈ ctxAliases
      · rw [if_pos hmem] at h₁; exact absurd h₁ (by simp)
      · rw [if_neg hmem] at h₁ h₂
        exact step _ false _ _ k k _ _ (fun _ => rfl) (fun _ => rfl)
          h₁ h₂ rfl
    | resourceListChanged why =>
      simp only [runServerEventCalls] at h₁ h₂
      by_cases hmem : withLoop
          (listChangedAlias "send_resource_list_changed" why) iteration ∈
          sessAliases
      · rw [if_pos hmem] at h₁; exact absurd h₁ (by simp)
      · rw [if_neg hmem] at h₁ h₂
        exact step _ false _ _ k k _ _ (fun _ => rfl) (fun _ => rfl)
          h₁ h₂ rfl
    | toolListChanged why =>
      simp only [runServerEventCalls] at h₁ h₂
      by_cases hmem : withLoop
          (listChangedAlias "send_tool_list_changed" why) iteration ∈
          sessAliases
      · rw [if_pos hmem] at h₁; exact absurd h₁ (by simp)
      · rw [if_neg hmem] at h₁ h₂
        exact step _ false _ _ k k _ _ (fun _ => rfl) (fun _ => rfl)
          h₁ h₂ rfl
    | promptListChanged why =>
      simp only [runServerEventCalls] at h₁ h₂
      by_cases hmem : withLoop
          (listChangedAlias "send_prompt_list_changed" why) iteration ∈
          sessAliases
      · rw [if_pos hmem] at h₁; exact absurd h₁ (by simp)
      · rw [if_neg hmem] at h₁ h₂
        exact step _ false _ _ k k _ _ (fun _ => rfl) (fun _ => rfl)
          h₁ h₂ rfl
    | elicitCall m s =>
      simp only [runServerEventCalls] at h₁ h₂
      by_cases hmem : withLoop (elicitAlias m s) iteration ∈ ctxAliases
      · rw [if_pos hmem] at h₁; exact absurd h₁ (by simp)
      · rw [if_neg hmem] at h₁ h₂
        exact step _ true _ _ (k + 1) (k + 1) _ _
          (fun hc => absurd hc (by simp)) (fun hc => absurd hc (by simp))
          h₁ h₂ rfl

/-- C4 witness: a progress report, a log, a list-changed notification and
an elicitation, run under two different random streams, agree on all
non-elicit ids, each equal to `uuid5Hex` of the alias. -/
theorem c4_deterministic_event_ids_witness :
    (runServerEventCalls (fun ns n => ns ++ "|" ++ n) "wf"
        (fun k => "r1-" ++ toString k) 0 [] []
        [(.reportProgressCall (some "tok") "0.5" "1.0" "None", none),
         (.logCall "info" "hello" "None", none),
         (.resourceListChanged "did it", none),
         (.elicitCall "Confirm?" "ModelMetaclass", none)] =
      .ok [⟨false, progressAlias "0.5" "1.0" "None",
              "wf" ++ "|" ++ progressAlias "0.5" "1.0" "None"⟩,
           ⟨false, logAlias "info" "hello" "None",
              "wf" ++ "|" ++ logAlias "info" "hello" "None"⟩,
           ⟨false, listChangedAlias "send_resource_list_changed" "did it",
              "wf" ++ "|" ++
                listChangedAlias "send_resource_list_changed" "did it"⟩,
           ⟨true, elicitAlias "Confirm?" "ModelMetaclass", "r1-0"⟩]) ∧
    (runServerEventCalls (fun ns n => ns ++ "|" ++ n) "wf"
        (fun k => "r2-" ++ toString k) 0 [] []
        [(.reportProgressCall (some "tok") "0.5" "1.0" "None", none),
         (.logCall "info" "hello" "None", none),
         (.resourceListChanged "did it", none),
         (.elicitCall "Confirm?" "ModelMetaclass", none)] =
      .ok [⟨false, progressAlias "0.5" "1.0" "None",
              "wf" ++ "|" ++ progressAlias "0.5" "1.0" "None"⟩,
           ⟨false, logAlias "info" "hello" "None",
              "wf" ++ "|" ++ logAlias "info" "hello" "None"⟩,
           ⟨false, listChangedAlias "send_resource_list_changed" "did it",
              "wf" ++ "|" ++
                listChangedAlias "send_resource_list_changed" "did it"⟩,
           ⟨true, elicitAlias "Confirm?" "ModelMetaclass", "r2-0"⟩]) ∧
    ([(⟨false, progressAlias "0.5" "1.0" "None",
          "wf" ++ "|" ++ progressAlias "0.5" "1.0" "None"⟩ : EventRecord),
       ⟨false, logAlias "info" "hello" "None",
          "wf" ++ "|" ++ logAlias "info" "hello" "None"⟩,
       ⟨false, listChangedAlias "send_resource_list_changed" "did it",
          "wf" ++ "|" ++
            listChangedAlias "send_resource_list_changed" "did it"⟩,
       ⟨true, elicitAlias "Confirm?" "ModelMetaclass", "r1-0"⟩].filter
        (fun r => !r.fromElicit) =
      [(⟨false, progressAlias "0.5" "1.0" "None",
          "wf" ++ "|" ++ progressAlias "0.5" "1.0" "None"⟩ : EventRecord),
       ⟨false, logAlias "info" "hello" "None",
          "wf" ++ "|" ++ logAlias "info" "hello" "None"⟩,
       ⟨false, listChangedAlias "send_resource_list_changed" "did it",
          "wf" ++ "|" ++
            listChangedAlias "send_resource_list_changed" "did it"⟩,
       ⟨true, elicitAlias "Confirm?" "ModelMetaclass", "r2-0"⟩].filter
        (fun r => !r.fromElicit) ∧
      ∀ r ∈ [(⟨false, progressAlias "0.5" "1.0" "None",
          "wf" ++ "|" ++ progressAlias "0.5" "1.0" "None"⟩ : EventRecord),
       ⟨false, logAlias "info" "hello" "None",
          "wf" ++ "|" ++ logAlias "info" "hello" "None"⟩,
       ⟨false, listChangedAlias "send_resource_list_changed" "did it",
          "wf" ++ "|" ++
            listChangedAlias "send_resource_list_changed" "did it"⟩,
       ⟨true, elicitAlias "Confirm?" "ModelMetaclass", "r1-0"⟩],
        r.fromElicit = false →
          r.eventId = (fun ns n => ns ++ "|" ++ n) "wf" r.eventAlias) :=
  ⟨rfl, rfl,
    c4_deterministic_event_ids (fun ns n => ns ++ "|" ++ n) "wf"
      (fun k => "r1-" ++ toString k) (fun k => "r2-" ++ toString k)
      [(.reportProgressCall (some "tok") "0.5" "1.0" "None", none),
       (.logCall "info" "hello" "None", none),
       (.resourceListChanged "did it", none),
       (.elicitCall "Confirm?" "ModelMetaclass", none)] 0 [] [] _ _ rfl rfl⟩

/-! ## C6: `elicit` (`src/reboot/mcp/server.py`) -/

/-- The prompt alteration applied when the handler re-enters after the
memoize record was already started. -/
def retryPreamble : String :=
  "Sorry, we got disconnected and need to try again: "

/-- What one elicit execution puts on the wire: the prompt shown to the
user and the fresh random `rebootEventId` of that send. -/
structure ElicitSend where
  prompt : String
  rebootEventId : String
  deriving DecidableEq, Repr

/-- The observable outcome of one entry into `elicit`: the id of the
`Memoize` record it keys, whether this entry performed the
`not started → started` transition (issued the elicitation), and the wire
send, absent when `at_least_once("Send request, wait for result")` already
holds a completed result. -/
structure ElicitOutcome where
  memoKey : String
  startPerformed : Bool
  send : Option ElicitSend
  deriving DecidableEq, Repr

/-- Embeds one entry into `elicit`: build the alias and fail on a
duplicate within this handler execution; key the `Memoize` record by
`uuid5(workflow_id, alias).hex`; if the record is not yet started,
`Start` it and keep the prompt, else prefix the prompt with
`retryPreamble`; then, unless the `at_least_once` step already has a
cached result, send the request over the wire with a fresh random
(`uuid4().hex`) event id. -/
def elicitStep (uuid5Hex : String → String → String)
    (uuid4Hex : String → String) (workflow_id message schemaTypeName : String)
    (iteration : Option Nat) (event_aliases : List String)
    (memoStarted : Bool) (cachedResult : Option String) (seed : String) :
    Except Unit (List String × ElicitOutcome) :=
  let a := withLoop (elicitAlias message schemaTypeName) iteration
  if a ∈ event_aliases then .error ()
  else
    let memoKey := uuid5Hex workflow_id a
    let message := if memoStarted then retryPreamble ++ message else message
    .ok (a :: event_aliases,
      { memoKey := memoKey
        startPerformed := !memoStarted
        send :=
          match cachedResult with
          | some _ => none
          | none => some ⟨message, uuid4Hex seed⟩ })

/-- A sequence of handler (re-)entries reaching this `elicit` call: each
entry starts a fresh handler execution (the wrapper creates a fresh
`_event_aliases` set per run), observes the durable memoize state left by
the previous entries, and supplies the `at_least_once` cache (`none`
until the step has completed) and that entry's fresh random seed. -/
def elicitRun (uuid5Hex : String → String → String)
    (uuid4Hex : String → String)
    (workflow_id message schemaTypeName : String) (iteration : Option Nat) :
    Bool → List (Option String × String) → List ElicitOutcome
  | _, [] => []
  | memoStarted, (cachedResult, seed) :: rest =>
    match elicitStep uuid5Hex uuid4Hex workflow_id message schemaTypeName
      iteration [] memoStarted cachedResult seed with
    | .ok (_, out) =>
      out :: elicitRun uuid5Hex uuid4Hex workflow_id message schemaTypeName
        iteration true rest
    | .error _ => []

theorem elicitStep_fresh (uuid5Hex : String → String → String)
    (uuid4Hex : String → String)
    (workflow_id message schemaTypeName : String) (iteration : Option Nat)
    (memoStarted : Bool) (cachedResult : Option String) (seed : String) :
    elicitStep uuid5Hex uuid4Hex workflow_id message schemaTypeName
      iteration [] memoStarted cachedResult seed =
    .ok ([withLoop (elicitAlias message schemaTypeName) iteration],
      { memoKey := uuid5Hex workflow_id
          (withLoop (elicitAlias message schemaTypeName) iteration)
        startPerformed := !memoStarted
        send :=
          match cachedResult with
          | some _ => none
          | none => some ⟨if memoStarted then retryPreamble ++ message
              else message, uuid4Hex seed⟩ }) := by
  rw [elicitStep, if_neg (List.not_mem_nil _)]

theorem elicitRun_cons (uuid5Hex : String → String → String)
    (uuid4Hex : String → String)
    (workflow_id message schemaTypeName : String) (iteration : Option Nat)
    (memoStarted : Bool) (cachedResult : Option String) (seed : String)
    (rest : List (Option String × String)) :
    elicitRun uuid5Hex uuid4Hex workflow_id message schemaTypeName iteration
      memoStarted ((cachedResult, seed) :: rest) =
    ({ memoKey := uuid5Hex workflow_id
          (withLoop (elicitAlias message schemaTypeName) iteration)
       startPerformed := !memoStarted
       send :=
         match cachedResult with
         | some _ => none
         | none => some ⟨if memoStarted then retryPreamble ++ message
             else message, uuid4Hex seed⟩ } : ElicitOutcome) ::
      elicitRun uuid5Hex uuid4Hex workflow_id message schemaTypeName
        iteration true rest := by
  rw [elicitRun, elicitStep_fresh]

theorem elicitRun_started_all (uuid5Hex : String → String → String)
    (uuid4Hex : String → String)
    (workflow_id message schemaTypeName : String) (iteration : Option Nat) :
    ∀ entries : List (Option String × String),
    ∀ out ∈ elicitRun uuid5Hex uuid4Hex workflow_id message schemaTypeName
        iteration true entries,
      out.startPerformed = false ∧
      out.memoKey = uuid5Hex workflow_id
        (withLoop (elicitAlias message schemaTypeName) iteration) ∧
      ∀ es, out.send = some es →
        es.prompt = retryPreamble ++ message := by
  intro entries
  induction entries with
  | nil => intro out hout; exact absurd hout (List.not_mem_nil out)
  | cons e rest ih =>
    obtain ⟨cachedResult, seed⟩ := e
    intro out hout
    rw [elicitRun_cons] at hout
    rcases List.mem_cons.mp hout with hh | hh
    · subst hh
      refine ⟨rfl, rfl, ?_⟩
      intro es hes
      cases cachedResult with
      | none =>
        simp only [Option.some.injEq] at hes
        rw [← hes]
        simp
      | some r => exact absurd hes (by simp)
    · exact ih out hh

/-- C6.  Each entry into `elicit` keys the same `Memoize` record
`uuid5(workflow_id, alias).hex`; across a sequence of handler
(re-)entries the elicitation is issued (the record's
`not started → started` transition performed) at most once — on the first
entry; every wire send carries that entry's fresh random `uuid4` id; the
first entry's send (when the result is not yet cached) carries the
original message, and every send of a later re-entry carries
`"Sorry, we got disconnected and need to try again: "` followed by it. -/
theorem c6_elicit_memoized_and_prompts (uuid5Hex : String → String → String)
    (uuid4Hex : String → String)
    (workflow_id message schemaTypeName : String) (iteration : Option Nat)
    (entries : List (Option String × String)) :
    ((elicitRun uuid5Hex uuid4Hex workflow_id message schemaTypeName
        iteration false entries).countP
      (fun out => out.startPerformed) ≤ 1) ∧
    (∀ out ∈ elicitRun uuid5Hex uuid4Hex workflow_id message schemaTypeName
        iteration false entries,
      out.memoKey = uuid5Hex workflow_id
        (withLoop (elicitAlias message schemaTypeName) iteration)) ∧
    (∀ cachedResult seed rest,
      entries = (cachedResult, seed) :: rest →
      ∃ out₀,
        elicitRun uuid5Hex uuid4Hex workflow_id message schemaTypeName
          iteration false entries =
          out₀ :: elicitRun uuid5Hex uuid4Hex workflow_id message
            schemaTypeName iteration true rest ∧
        out₀.startPerformed = true ∧
        (cachedResult = none →
          out₀.send = some ⟨message, uuid4Hex seed⟩) ∧
        (∀ r, cachedResult = some r → out₀.send = none)) ∧
    (∀ out ∈ elicitRun uuid5Hex uuid4Hex workflow_id message schemaTypeName
        iteration true entries,
      ∀ es, out.send = some es →
        es.prompt = retryPreamble ++ message) := by
  refine ⟨?_, ?_, ?_, ?_⟩
  · cases entries with
    | nil => simp [elicitRun]
    | cons e rest =>
      obtain ⟨cachedResult, seed⟩ := e
      rw [elicitRun_cons]
      rw [List.countP_cons]
      have hrest : (elicitRun uuid5Hex uuid4Hex workflow_id message
          schemaTypeName iteration true rest).countP
            (fun out => out.startPerformed) = 0 := by
        rw [List.countP_eq_zero]
        intro out hout
        have := (elicitRun_started_all uuid5Hex uuid4Hex workflow_id
          message schemaTypeName iteration rest out hout).1
        simp [this]
      rw [hrest]
      simp
  · cases entries with
    | nil => intro out hout; exact absurd hout (List.not_mem_nil out)
    | cons e rest =>
      obtain ⟨cachedResult, seed⟩ := e
      intro out hout
      rw [elicitRun_cons] at hout
      rcases List.mem_cons.mp hout with hh | hh
      · subst hh; rfl
      · exact (elicitRun_started_all uuid5Hex uuid4Hex workflow_id message
          schemaTypeName iteration rest out hh).2.1
  · intro cachedResult seed rest hentries
    subst hentries
    rw [elicitRun_cons]
    refine ⟨_, rfl, rfl, ?_, ?_⟩
    · intro hc; subst hc; rfl
    · intro r hc; subst hc; rfl
  · intro out hout
    exact (elicitRun_started_all uuid5Hex uuid4Hex workflow_id message
      schemaTypeName iteration entries out hout).2.2

/-- C6 witness: three entries — a fresh first entry that sends the
original prompt, a crashed re-entry that re-sends with the altered
prompt and a new random id, and a final entry whose result is cached and
which sends nothing. -/
theorem c6_elicit_memoized_and_prompts_witness :
    (elicitRun (fun ns n => ns ++ "|" ++ n) (fun s => "u4-" ++ s) "wf"
        "Confirm?" "ModelMetaclass" none false
        [(none, "s1"), (none, "s2"), (some "accepted", "s3")] =
      [⟨"wf" ++ "|" ++ elicitAlias "Confirm?" "ModelMetaclass", true,
          some ⟨"Confirm?", "u4-" ++ "s1"⟩⟩,
       ⟨"wf" ++ "|" ++ elicitAlias "Confirm?" "ModelMetaclass", false,
          some ⟨retryPreamble ++ "Confirm?", "u4-" ++ "s2"⟩⟩,
       ⟨"wf" ++ "|" ++ elicitAlias "Confirm?" "ModelMetaclass", false,
          none⟩]) ∧
    ((elicitRun (fun ns n => ns ++ "|" ++ n) (fun s => "u4-" ++ s) "wf"
        "Confirm?" "ModelMetaclass" none false
        [(none, "s1"), (none, "s2"), (some "accepted", "s3")]).countP
      (fun out => out.startPerformed) ≤ 1) ∧
    (∃ out₀,
      elicitRun (fun ns n => ns ++ "|" ++ n) (fun s => "u4-" ++ s) "wf"
          "Confirm?" "ModelMetaclass" none false
          [(none, "s1"), (none, "s2"), (some "accepted", "s3")] =
        out₀ :: elicitRun (fun ns n => ns ++ "|" ++ n) (fun s => "u4-" ++ s)
          "wf" "Confirm?" "ModelMetaclass" none true
          [(none, "s2"), (some "accepted", "s3")] ∧
      out₀.startPerformed = true ∧
      ((none : Option String) = none →
        out₀.send = some ⟨"Confirm?", (fun s => "u4-" ++ s) "s1"⟩) ∧
      (∀ r, (none : Option String) = some r → out₀.send = none)) :=
  ⟨rfl,
   (c6_elicit_memoized_and_prompts (fun ns n => ns ++ "|" ++ n)
      (fun s => "u4-" ++ s) "wf" "Confirm?" "ModelMetaclass" none
      [(none, "s1"), (none, "s2"), (some "accepted", "s3")]).1,
   (c6_elicit_memoized_and_prompts (fun ns n => ns ++ "|" ++ n)
      (fun s => "u4-" ++ s) "wf" "Confirm?" "ModelMetaclass" none
      [(none, "s1"), (none, "s2"), (some "accepted", "s3")]).2.2.1
      none "s1" [(none, "s2"), (some "accepted", "s3")] rfl⟩

end DurableMCP
